import Mathlib

/-!
Verification development for the `rstrict` sandbox launcher.

This file gives a shallow embedding of the program's core components:

* `Rstrict.apply` embeds `sandbox::apply` from `src/sandbox/mod.rs`: ruleset
  construction from a `Config`, per-path access-right derivation, network
  port rules, and the final `restrict_self` commit.
* `Rstrict.get_library_dependencies` embeds the `ldd`-output parser from
  `src/exec.rs`.
* `Rstrict.process_environment_vars` embeds the environment-variable
  formatter from `src/utils.rs`.

Effectful host interactions are made explicit parameters:

* `FsEnv` models the filesystem: whether `PathFd::new` succeeds on a path
  (`resolvable`) and what `fs::metadata` returns (`metadata`).
* `Kernel` models whether the running kernel enforces Landlock; the
  `landlock` crate's default best-effort compatibility mode means ruleset
  creation and `restrict_self` succeed even on unsupported kernels, merely
  reporting `RulesetStatus::NotEnforced`, so those operations are embedded
  as total functions.
* In `get_library_dependencies`, the filesystem-existence test used for the
  well-known system directories is the explicit parameter `pathExists`, and
  the text output of the `ldd` child process is the explicit input string.
* In `process_environment_vars`, the ambient process environment
  (`std::env::var`) is the explicit parameter `envVar`.
-/

set_option maxRecDepth 20000

namespace Rstrict

/-- Landlock filesystem access rights (`landlock::AccessFs`). -/
inductive AccessFs where
  | ReadFile | WriteFile | Execute | ReadDir | RemoveDir | RemoveFile
  | MakeChar | MakeDir | MakeReg | MakeSock | MakeFifo | MakeBlock | MakeSym
  | Refer | Truncate | IoctlDev
deriving DecidableEq, Repr

/-- Landlock network access rights (`landlock::AccessNet`). -/
inductive AccessNet where
  | BindTcp | ConnectTcp
deriving DecidableEq, Repr

/-- Landlock ABI revisions (`landlock::ABI`). -/
inductive ABI where
  | V1 | V2 | V3 | V4 | V5
deriving DecidableEq, Repr

/-- The 13 filesystem access rights of Landlock ABI V1 (V2 adds `Refer`,
V3 adds `Truncate`, V4 adds only network rights, V5 adds `IoctlDev`). -/
def AccessFs.fromAllV1 : Finset AccessFs :=
  { AccessFs.Execute, AccessFs.WriteFile, AccessFs.ReadFile,
    AccessFs.ReadDir, AccessFs.RemoveDir, AccessFs.RemoveFile,
    AccessFs.MakeChar, AccessFs.MakeDir, AccessFs.MakeReg,
    AccessFs.MakeSock, AccessFs.MakeFifo, AccessFs.MakeBlock,
    AccessFs.MakeSym }

/-- `AccessFs::from_all(abi)`, by ABI revision (see `AccessFs.fromAllV1`). -/
def AccessFs.fromAll : ABI → Finset AccessFs
  | .V1 => AccessFs.fromAllV1
  | .V2 => AccessFs.fromAllV1 ∪ {AccessFs.Refer}
  | .V3 => AccessFs.fromAllV1 ∪ {AccessFs.Refer} ∪ {AccessFs.Truncate}
  | .V4 => AccessFs.fromAllV1 ∪ {AccessFs.Refer} ∪ {AccessFs.Truncate}
  | .V5 =>
      AccessFs.fromAllV1 ∪ {AccessFs.Refer} ∪ {AccessFs.Truncate}
        ∪ {AccessFs.IoctlDev}

/-- `sandbox::Config` (paths are modelled as strings, ports as naturals). -/
structure Config where
  read_only_paths : List String
  read_write_paths : List String
  read_only_executable_paths : List String
  read_write_executable_paths : List String
  bind_tcp_ports : List Nat
  connect_tcp_ports : List Nat
  best_effort : Bool
  unrestricted_filesystem : Bool
  unrestricted_network : Bool
deriving DecidableEq, Repr

/-- `Config::new()`. -/
def Config.new : Config :=
  { read_only_paths := []
    read_write_paths := []
    read_only_executable_paths := []
    read_write_executable_paths := []
    bind_tcp_ports := []
    connect_tcp_ports := []
    best_effort := false
    unrestricted_filesystem := false
    unrestricted_network := false }

/-- The slice of `std::fs::Metadata` the program inspects. -/
structure Metadata where
  is_dir : Bool
deriving DecidableEq, Repr

/-- The filesystem environment: `resolvable` models whether `PathFd::new`
succeeds on a path, `metadata` models `fs::metadata` (`none` = lookup
failure). -/
structure FsEnv where
  resolvable : String → Bool
  metadata : String → Option Metadata

/-- `is_directory` from `src/sandbox/mod.rs`:
`fs::metadata(path).map(|m| m.is_dir()).unwrap_or(false)`. -/
def is_directory (env : FsEnv) (path : String) : Bool :=
  ((env.metadata path).map (fun m => m.is_dir)).getD false

/-- The kernel environment: whether the running kernel enforces Landlock. -/
structure Kernel where
  landlockSupported : Bool
deriving DecidableEq, Repr

/-- `landlock::RulesetStatus`, as returned by `restrict_self`. -/
inductive RulesetStatus where
  | fullyEnforced | partiallyEnforced | notEnforced
deriving DecidableEq, Repr

/-- The enforcement status `restrict_self` reports for the given kernel. -/
def restrictSelfStatus (kernel : Kernel) : RulesetStatus :=
  if kernel.landlockSupported then .fullyEnforced else .notEnforced

/-- A `landlock::Ruleset` before `create()`: the handled access categories. -/
structure Ruleset where
  handledFs : Finset AccessFs
  handledNet : Finset AccessNet
deriving DecidableEq

/-- `Ruleset::default()`. -/
def Ruleset.default : Ruleset := { handledFs := ∅, handledNet := ∅ }

/-- `ruleset.handle_access(AccessFs...)`. -/
def Ruleset.handleAccessFs (r : Ruleset) (s : Finset AccessFs) : Ruleset :=
  { r with handledFs := r.handledFs ∪ s }

/-- `ruleset.handle_access(AccessNet...)`. -/
def Ruleset.handleAccessNet (r : Ruleset) (a : AccessNet) : Ruleset :=
  { r with handledNet := insert a r.handledNet }

/-- A registered `PathBeneath` rule: the path (standing for the open
`PathFd` handle) and the granted access-right set. -/
structure FsRule where
  path : String
  access : Finset AccessFs
deriving DecidableEq

/-- A registered `NetPort` rule. -/
structure NetRule where
  port : Nat
  access : AccessNet
deriving DecidableEq, Repr

/-- A `RulesetCreated`: handled categories plus the registered rules. -/
structure RulesetCreated where
  handledFs : Finset AccessFs
  handledNet : Finset AccessNet
  fsRules : List FsRule
  netRules : List NetRule
deriving DecidableEq

/-- `ruleset.create()`. -/
def Ruleset.create (r : Ruleset) : RulesetCreated :=
  { handledFs := r.handledFs, handledNet := r.handledNet
    fsRules := [], netRules := [] }

/-- `ruleset.add_rule(PathBeneath::new(path_fd, access_fs))`. -/
def RulesetCreated.addFsRule (rc : RulesetCreated) (path : String)
    (access : Finset AccessFs) : RulesetCreated :=
  { rc with fsRules := rc.fsRules ++ [{ path := path, access := access }] }

/-- One `add_rule(NetPort::new(port, access))` per port in the list. -/
def RulesetCreated.addNetRules (rc : RulesetCreated) (access : AccessNet)
    (ports : List Nat) : RulesetCreated :=
  { rc with netRules :=
      rc.netRules ++ ports.map (fun port => { port := port, access := access }) }

/-- Access-right derivation for a read-only executable path (`--rox` loop
body in `apply`): `ReadFile | Execute`, plus `ReadDir` for directories. -/
def roxAccess (env : FsEnv) (path : String) : Finset AccessFs :=
  let access : Finset AccessFs := ∅
  let access := access ∪ {AccessFs.ReadFile}
  let access := access ∪ {AccessFs.Execute}
  if is_directory env path then access ∪ {AccessFs.ReadDir} else access

/-- Access-right derivation for a read-write executable path (`--rwx` loop
body in `apply`). -/
def rwxAccess (env : FsEnv) (path : String) : Finset AccessFs :=
  let access : Finset AccessFs := ∅
  let access := access ∪ {AccessFs.ReadFile}
  let access := access ∪ {AccessFs.WriteFile}
  let access := access ∪ {AccessFs.Execute}
  if is_directory env path then
    access ∪ {AccessFs.ReadDir} ∪ {AccessFs.RemoveDir} ∪ {AccessFs.RemoveFile}
      ∪ {AccessFs.MakeChar} ∪ {AccessFs.MakeDir} ∪ {AccessFs.MakeReg}
      ∪ {AccessFs.MakeSock} ∪ {AccessFs.MakeFifo} ∪ {AccessFs.MakeBlock}
      ∪ {AccessFs.MakeSym}
  else access

/-- Access-right derivation for a read-only path (`--ro` loop body). -/
def roAccess (env : FsEnv) (path : String) : Finset AccessFs :=
  let access : Finset AccessFs := ∅
  let access := access ∪ {AccessFs.ReadFile}
  if is_directory env path then access ∪ {AccessFs.ReadDir} else access

/-- Access-right derivation for a read-write path (`--rw` loop body). -/
def rwAccess (env : FsEnv) (path : String) : Finset AccessFs :=
  let access : Finset AccessFs := ∅
  let access := access ∪ {AccessFs.ReadFile}
  let access := access ∪ {AccessFs.WriteFile}
  if is_directory env path then
    access ∪ {AccessFs.ReadDir} ∪ {AccessFs.RemoveDir} ∪ {AccessFs.RemoveFile}
      ∪ {AccessFs.MakeChar} ∪ {AccessFs.MakeDir} ∪ {AccessFs.MakeReg}
      ∪ {AccessFs.MakeSock} ∪ {AccessFs.MakeFifo} ∪ {AccessFs.MakeBlock}
      ∪ {AccessFs.MakeSym}
  else access

/-- The shared shape of the four path loops in `apply`: resolve each path
with `PathFd::new`; on success register a rule with the derived access set,
on failure return `Err(anyhow!("Failed to access path: ..."))`. -/
def addPathRules (env : FsEnv) (deriveAccess : String → Finset AccessFs) :
    List String → RulesetCreated → Except String RulesetCreated
  | [], rc => .ok rc
  | path :: rest, rc =>
    if env.resolvable path then
      addPathRules env deriveAccess rest (rc.addFsRule path (deriveAccess path))
    else
      .error ("Failed to access path: " ++ path)

/-- The emptiness check guarding the default restrictive branch of
`apply`. -/
def noRulesCondition (config : Config) : Bool :=
  config.read_only_paths.isEmpty
    && config.read_write_paths.isEmpty
    && config.read_only_executable_paths.isEmpty
    && config.read_write_executable_paths.isEmpty
    && config.bind_tcp_ports.isEmpty
    && config.connect_tcp_ports.isEmpty
    && !config.unrestricted_filesystem
    && !config.unrestricted_network

/-- The log line emitted when `restrict_self` reports `NotEnforced`. -/
def notSupportedMsg : String := "Landlock is not supported by the running kernel"

/-- The observable result of a successful `apply`: the committed ruleset,
the status `restrict_self` returned, and the diagnostic logged about it. -/
structure Enforcement where
  ruleset : RulesetCreated
  status : RulesetStatus
  message : String
deriving DecidableEq

/-- `sandbox::apply` from `src/sandbox/mod.rs`. -/
def apply (env : FsEnv) (kernel : Kernel) (config : Config) :
    Except String Enforcement :=
  let abi := ABI.V5
  if noRulesCondition config then
    let ruleset := Ruleset.default
    let ruleset :=
      if !config.unrestricted_filesystem then
        ruleset.handleAccessFs (AccessFs.fromAll abi)
      else ruleset
    let ruleset :=
      if !config.unrestricted_network then
        (ruleset.handleAccessNet AccessNet.BindTcp).handleAccessNet
          AccessNet.ConnectTcp
      else ruleset
    let created := ruleset.create
    let status := restrictSelfStatus kernel
    Except.ok
      { ruleset := created
        status := status
        message :=
          if status = RulesetStatus.notEnforced then notSupportedMsg
          else "Default restrictive rules applied successfully" }
  else
    let ruleset := Ruleset.default
    let ruleset :=
      if !config.unrestricted_filesystem then
        ruleset.handleAccessFs (AccessFs.fromAll abi)
      else ruleset
    let ruleset :=
      if !config.unrestricted_network then
        (ruleset.handleAccessNet AccessNet.BindTcp).handleAccessNet
          AccessNet.ConnectTcp
      else ruleset
    let created := ruleset.create
    do
      let withFs ←
        if !config.unrestricted_filesystem then do
          let r1 ← addPathRules env (roxAccess env)
            config.read_only_executable_paths created
          let r2 ← addPathRules env (rwxAccess env)
            config.read_write_executable_paths r1
          let r3 ← addPathRules env (roAccess env)
            config.read_only_paths r2
          addPathRules env (rwAccess env) config.read_write_paths r3
        else pure created
      let withNet :=
        if !config.unrestricted_network then
          (withFs.addNetRules AccessNet.BindTcp
            config.bind_tcp_ports).addNetRules AccessNet.ConnectTcp
            config.connect_tcp_ports
        else withFs
      let status := restrictSelfStatus kernel
      Except.ok
        { ruleset := withNet
          status := status
          message :=
            if status = RulesetStatus.notEnforced then notSupportedMsg
            else "Landlock restrictions applied successfully" }

/-- What `main` does right after building the config (`src/main.rs`):
`apply` failure exits with status 1 and no launch; success proceeds to
`exec::run`. -/
inductive MainStep where
  | exitFailure | launch
deriving DecidableEq, Repr

/-- The launch decision taken by `main` after `sandbox::apply`. -/
def mainLaunchStep (env : FsEnv) (kernel : Kernel) (config : Config) :
    MainStep :=
  match apply env kernel config with
  | .error _ => .exitFailure
  | .ok _ => .launch

/-- All paths declared in a policy, in the order `apply` visits them. -/
def allDeclaredPaths (config : Config) : List String :=
  config.read_only_executable_paths ++ config.read_write_executable_paths
    ++ config.read_only_paths ++ config.read_write_paths

/-- Landlock `PathBeneath` coverage: `p` lies in the hierarchy rooted at
`base`. -/
def pathIsBeneath (p base : String) : Bool :=
  p = base || List.isPrefixOf (base.toList ++ ['/']) p.toList
    || (base = "/" && List.isPrefixOf ['/'] p.toList)

/-- Semantics of a committed ruleset for one filesystem action: an access
right outside the handled set stays ambient (allowed); a handled right is
allowed only if some registered rule covering the path grants it. -/
def RulesetCreated.allowsFs (rc : RulesetCreated) (p : String)
    (a : AccessFs) : Bool :=
  if a ∈ rc.handledFs then
    rc.fsRules.any (fun rule => pathIsBeneath p rule.path
      && decide (a ∈ rule.access))
  else true

/-- Semantics of a committed ruleset for one TCP action on a port. -/
def RulesetCreated.allowsNet (rc : RulesetCreated) (port : Nat)
    (a : AccessNet) : Bool :=
  if a ∈ rc.handledNet then
    rc.netRules.any (fun rule => rule.port = port && rule.access = a)
  else true

/-- Union of the access sets of all rules registered for exactly path `p`. -/
def rulesUnion (rules : List FsRule) (p : String) : Finset AccessFs :=
  (rules.filter (fun rule => rule.path = p)).foldl
    (fun acc rule => acc ∪ rule.access) ∅

/-- Effective rights a committed ruleset grants at exactly path `p`. -/
def RulesetCreated.exactRights (rc : RulesetCreated) (p : String) :
    Finset AccessFs :=
  rulesUnion rc.fsRules p

/-! ### String machinery for the `ldd`-output parser (`src/exec.rs`)

The Rust code works on `&str`; the embedding works on the underlying
character lists so that every function is structurally recursive and
kernel-evaluable. -/

/-- Drop matching characters from the right end of a character list. -/
def dropWhileRight (p : Char → Bool) (cs : List Char) : List Char :=
  (cs.reverse.dropWhile p).reverse

/-- Worker for `str::split_whitespace`: accumulates the current token in
reverse. -/
def splitWsAux : List Char → List Char → List (List Char)
  | [], acc => if acc.isEmpty then [] else [acc.reverse]
  | c :: cs, acc =>
    if c.isWhitespace then
      if acc.isEmpty then splitWsAux cs [] else acc.reverse :: splitWsAux cs []
    else
      splitWsAux cs (c :: acc)

/-- `str::split_whitespace` (ASCII whitespace model). -/
def split_whitespace (s : String) : List String :=
  (splitWsAux s.toList []).map String.mk

/-- Does `pat` occur as a contiguous subsequence of the list? -/
def containsSeq (pat : List Char) : List Char → Bool
  | [] => pat.isEmpty
  | c :: cs => List.isPrefixOf pat (c :: cs) || containsSeq pat cs

/-- `str::contains` for a string pattern. -/
def containsStr (s pat : String) : Bool :=
  containsSeq pat.toList s.toList

/-- `str::contains` for a char pattern. -/
def containsChar (s : String) (c : Char) : Bool :=
  s.toList.contains c

/-- `str::starts_with('/')`. -/
def startsWithSlash (s : String) : Bool :=
  match s.toList with
  | c :: _ => c = '/'
  | [] => false

/-- `.trim_matches(|c| c == '(' || c == ')')`. -/
def trimParens (s : String) : String :=
  String.mk (dropWhileRight (fun c => c = '(' || c = ')')
    (s.toList.dropWhile (fun c => c = '(' || c = ')')))

/-- `str::trim` (ASCII whitespace model). -/
def rustTrim (s : String) : String :=
  String.mk (dropWhileRight Char.isWhitespace
    (s.toList.dropWhile Char.isWhitespace))

/-- `std::path::Path::parent().and_then(|p| p.to_str())`, modelled on Unix
path strings: strip trailing separators, drop the final component, then
strip the separators before it (keeping `"/"` when the result would be the
root, and returning `""` for a bare relative component). -/
def pathParent (s : String) : Option String :=
  let cs := s.toList
  if cs.isEmpty then none
  else
    let noslash := dropWhileRight (fun c => c = '/') cs
    if noslash.isEmpty then none
    else
      let pre := dropWhileRight (fun c => !(c = '/' : Bool)) noslash
      if pre.isEmpty then some ""
      else
        let pre2 := dropWhileRight (fun c => c = '/') pre
        if pre2.isEmpty then some "/" else some (String.mk pre2)

/-- Split a character list at every newline, always returning at least one
(possibly empty) segment. -/
def splitOnNl : List Char → List (List Char)
  | [] => [[]]
  | c :: cs =>
    if c = '\n' then [] :: splitOnNl cs
    else
      match splitOnNl cs with
      | [] => [[c]]
      | l :: ls => (c :: l) :: ls

/-- Remove one trailing carriage return (for `\r\n` line endings). -/
def stripCarriage (cs : List Char) : List Char :=
  match cs.reverse with
  | c :: rest => if c = '\r' then rest.reverse else cs
  | [] => []

/-- `str::lines`: split at `\n`, strip a `\r` preceding each `\n`, and do
not produce a final empty line for a trailing newline. -/
def rustLines (s : String) : List String :=
  let parts := splitOnNl s.toList
  let stripped := (parts.dropLast.map stripCarriage).map String.mk
  match parts.getLast? with
  | none => stripped
  | some [] => stripped
  | some lst => stripped ++ [String.mk lst]

/-- `HashSet::insert`, determinized as insertion-ordered dedup on lists. -/
def insertUnique (l : List String) (x : String) : List String :=
  if x ∈ l then l else l ++ [x]

/-- Record the parent directory of an extracted library path
(`Path::new(lib_path).parent()` followed by `parent_dirs.insert`). -/
def recordParentDir (dirs : List String) (path : String) : List String :=
  match pathParent path with
  | some parent => insertUnique dirs parent
  | none => dirs

/-- First pass of `get_library_dependencies`, one line: skip empty lines and
lines without `=>`; with at least three whitespace tokens, take the third,
trim parentheses, and if nonempty record it and its parent directory. -/
def lddLine1 (acc : List String × List String) (line : String) :
    List String × List String :=
  if line = "" ∨ containsStr line "=>" = false then acc
  else
    let parts := split_whitespace line
    if 3 ≤ parts.length then
      let lib_path := trimParens (parts.getD 2 "")
      if lib_path ≠ "" then
        (acc.1 ++ [lib_path], recordParentDir acc.2 lib_path)
      else acc
    else acc

/-- Second pass of `get_library_dependencies`, one line: skip lines with
`=>`; on a dynamic-loader line take the first token, and if nonempty and
absolute record it and its parent directory. -/
def lddLine2 (acc : List String × List String) (line : String) :
    List String × List String :=
  if containsStr line "=>" then acc
  else if containsStr line "/lib64/ld-linux" || containsStr line "/lib/ld-linux" then
    let parts := split_whitespace line
    if parts.isEmpty then acc
    else
      let loader_path := rustTrim (parts.getD 0 "")
      if loader_path ≠ "" ∧ startsWithSlash loader_path then
        (acc.1 ++ [loader_path], recordParentDir acc.2 loader_path)
      else acc
  else acc

/-- The hard-coded list of well-known system directories. -/
def system_dirs : List String :=
  ["/lib", "/lib64", "/usr/lib", "/lib/x86_64-linux-gnu",
   "/usr/lib/x86_64-linux-gnu", "/etc"]

/-- `exec::get_library_dependencies` from `src/exec.rs`, given the text
output of `ldd` (the success path: `ldd` exited 0 with UTF-8 output) and
the filesystem-existence test for the system directories. -/
def get_library_dependencies (pathExists : String → Bool)
    (output_str : String) : List String :=
  let lines := rustLines output_str
  let acc1 := lines.foldl lddLine1 ([], [])
  let acc2 := lines.foldl lddLine2 acc1
  let parent_dirs := system_dirs.foldl
    (fun dirs d => if pathExists d then insertUnique dirs d else dirs) acc2.2
  acc2.1 ++ parent_dirs

/-- `utils::process_environment_vars` from `src/utils.rs`, with the ambient
environment (`std::env::var`) passed explicitly. -/
def process_environment_vars (envVar : String → Option String)
    (env_flags : List String) : List String :=
  env_flags.foldl
    (fun result env_flag =>
      if containsChar env_flag '=' = false then
        match envVar env_flag with
        | some val => result ++ [env_flag ++ "=" ++ val]
        | none => result
      else
        result ++ [env_flag]) []

/-- The filesystem rules `apply` registers for a config (in visit order),
when filesystem restriction is on. -/
def expectedFsRules (env : FsEnv) (config : Config) : List FsRule :=
  config.read_only_executable_paths.map
      (fun p => { path := p, access := roxAccess env p })
    ++ config.read_write_executable_paths.map
      (fun p => { path := p, access := rwxAccess env p })
    ++ config.read_only_paths.map
      (fun p => { path := p, access := roAccess env p })
    ++ config.read_write_paths.map
      (fun p => { path := p, access := rwAccess env p })

/-! ### Access-set characterizations written from the specification text -/

/-- Spec wording for read-only paths: `{read-file}`, plus `{read-dir}` iff a
directory. -/
def claimRoSet (isDir : Bool) : Finset AccessFs :=
  {AccessFs.ReadFile} ∪ (if isDir then {AccessFs.ReadDir} else ∅)

/-- Spec wording for read-only executable paths: `{read-file, execute}`,
plus `{read-dir}` iff a directory. -/
def claimRoxSet (isDir : Bool) : Finset AccessFs :=
  {AccessFs.ReadFile, AccessFs.Execute}
    ∪ (if isDir then {AccessFs.ReadDir} else ∅)

/-- Spec wording for read-write paths: `{read-file, write-file}`, plus the
full directory-mutation set iff a directory. -/
def claimRwSet (isDir : Bool) : Finset AccessFs :=
  {AccessFs.ReadFile, AccessFs.WriteFile}
    ∪ (if isDir then
        ({AccessFs.ReadDir, AccessFs.RemoveDir, AccessFs.RemoveFile,
          AccessFs.MakeChar, AccessFs.MakeDir, AccessFs.MakeReg,
          AccessFs.MakeSock, AccessFs.MakeFifo, AccessFs.MakeBlock,
          AccessFs.MakeSym} : Finset AccessFs)
      else ∅)

/-- Spec wording for read-write executable paths: the read-write set plus
`{execute}`. -/
def claimRwxSet (isDir : Bool) : Finset AccessFs :=
  claimRwSet isDir ∪ {AccessFs.Execute}

/-! ### Concrete fixtures used by witnesses and counterexamples -/

/-- Every path resolvable, every path a plain file. -/
def envAllFiles : FsEnv :=
  { resolvable := fun _ => true, metadata := fun _ => some { is_dir := false } }

/-- Every path resolvable, every metadata lookup failing. -/
def envNoMeta : FsEnv :=
  { resolvable := fun _ => true, metadata := fun _ => none }

/-- No path resolvable. -/
def envBad : FsEnv :=
  { resolvable := fun _ => false, metadata := fun _ => none }

/-- A kernel that enforces Landlock. -/
def kernelOn : Kernel := { landlockSupported := true }

/-- A kernel without Landlock support. -/
def kernelOff : Kernel := { landlockSupported := false }

/-- A small mixed policy used as the C2 witness input. -/
def cfgW2 : Config :=
  { Config.new with
      read_only_paths := ["/etc/hosts"]
      read_only_executable_paths := ["/bin/ls"]
      read_write_paths := ["/tmp"] }

/-- A policy that declares a path but disables filesystem restriction:
the path-processing loops are skipped entirely. -/
def cfgUnrestrictedBadPath : Config :=
  { Config.new with
      read_only_paths := ["x"]
      unrestricted_filesystem := true }

/-- A policy declaring the same path in two categories, used as the C5
witness input. -/
def cfgW5 : Config :=
  { Config.new with
      read_only_paths := ["/srv/data"]
      read_write_paths := ["/srv/data"] }

/-! ### Specification-side description of the `ldd`-output parser -/

/-- Spec wording, first parsing rule (with the code's two extra guards made
explicit): a line containing the resolution marker `=>` with at least three
whitespace tokens yields its third token with surrounding parentheses
trimmed, provided the trimmed token is nonempty. -/
def specResolvedEntry (line : String) : Option String :=
  if containsStr line "=>" = true ∧ 3 ≤ (split_whitespace line).length then
    let t := trimParens ((split_whitespace line).getD 2 "")
    if t = "" then none else some t
  else none

/-- Spec wording, second parsing rule (with the code's extra guards made
explicit): a line lacking the marker but containing a dynamic-loader path
fragment yields its first token, provided it is nonempty and starts with
`/`. -/
def specLoaderEntry (line : String) : Option String :=
  if containsStr line "=>" = false
      ∧ (containsStr line "/lib64/ld-linux" = true
        ∨ containsStr line "/lib/ld-linux" = true) then
    let t := rustTrim ((split_whitespace line).getD 0 "")
    if t ≠ "" ∧ startsWithSlash t = true then some t else none
  else none

/-- All library paths the spec says get extracted, resolved entries first. -/
def specLibPaths (output_str : String) : List String :=
  (rustLines output_str).filterMap specResolvedEntry
    ++ (rustLines output_str).filterMap specLoaderEntry

/-- The spec's description of the whole parse: the extracted library paths,
followed by the containing directory of every extracted path plus the
well-known system directories that exist, deduplicated in first-recorded
order. -/
def specLibraryDependencies (pathExists : String → Bool)
    (output_str : String) : List String :=
  let libs := specLibPaths output_str
  let dirs := (libs.filterMap pathParent
    ++ system_dirs.filter pathExists).foldl insertUnique []
  libs ++ dirs

/-- Record an optional directory entry. -/
def optRecord (dirs : List String) : Option String → List String
  | some d => insertUnique dirs d
  | none => dirs

/-- Spec wording for one environment flag: an entry containing `=` is
passed through verbatim; an entry without `=` resolves to `KEY=VALUE` when
the ambient variable is set and is omitted when unset. -/
def specEnvEntry (envVar : String → Option String) (flag : String) :
    Option String :=
  if containsChar flag '=' = true then some flag
  else (envVar flag).map (fun val => flag ++ "=" ++ val)

/-! ### Helper lemmas about `apply` -/

theorem addPathRules_ok (env : FsEnv) (d : String → Finset AccessFs)
    (ps : List String) :
    (∀ p ∈ ps, env.resolvable p = true) → ∀ rc : RulesetCreated,
    addPathRules env d ps rc
      = .ok { rc with fsRules :=
          rc.fsRules ++ ps.map (fun p => { path := p, access := d p }) } := by
  induction ps with
  | nil => intro h rc; simp [addPathRules]
  | cons p rest ih =>
    intro h rc
    have hp : env.resolvable p = true := h p (by simp)
    rw [addPathRules, if_pos hp,
      ih (fun q hq => h q (List.mem_cons_of_mem _ hq)) _]
    simp [RulesetCreated.addFsRule]

theorem addPathRules_error (env : FsEnv) (d : String → Finset AccessFs)
    (ps : List String) (rc : RulesetCreated)
    (h : ∃ p ∈ ps, env.resolvable p = false) :
    ∃ msg, addPathRules env d ps rc = .error msg := by
  induction ps generalizing rc with
  | nil => simp at h
  | cons p rest ih =>
    by_cases hp : env.resolvable p = true
    · rw [addPathRules, if_pos hp]
      refine ih _ ?_
      obtain ⟨q, hq, hqbad⟩ := h
      rcases List.mem_cons.mp hq with rfl | hq'
      · rw [hp] at hqbad; cases hqbad
      · exact ⟨q, hq', hqbad⟩
    · rw [addPathRules, if_neg hp]
      exact ⟨_, rfl⟩

theorem noRulesCondition_decomp (config : Config)
    (h : noRulesCondition config = true) :
    config.read_only_paths = [] ∧ config.read_write_paths = []
      ∧ config.read_only_executable_paths = []
      ∧ config.read_write_executable_paths = []
      ∧ config.bind_tcp_ports = [] ∧ config.connect_tcp_ports = []
      ∧ config.unrestricted_filesystem = false
      ∧ config.unrestricted_network = false := by
  simp only [noRulesCondition, Bool.and_eq_true, Bool.not_eq_true',
    List.isEmpty_iff] at h
  obtain ⟨⟨⟨⟨⟨⟨⟨h1, h2⟩, h3⟩, h4⟩, h5⟩, h6⟩, h7⟩, h8⟩ := h
  exact ⟨h1, h2, h3, h4, h5, h6, h7, h8⟩


/-- Full characterization of `apply` on a config whose declared paths are
all resolvable (vacuously so when filesystem restriction is off): it
succeeds and produces exactly the negotiated handled sets, the per-path
rules in visit order, the per-port rules, the kernel's status, and the
corresponding log line. -/
theorem apply_ok (env : FsEnv) (kernel : Kernel) (config : Config)
    (hres : config.unrestricted_filesystem = true
      ∨ ∀ p ∈ allDeclaredPaths config, env.resolvable p = true) :
    apply env kernel config = Except.ok
      { ruleset :=
          { handledFs := if config.unrestricted_filesystem then ∅
              else AccessFs.fromAll ABI.V5
            handledNet := if config.unrestricted_network then ∅
              else insert AccessNet.ConnectTcp (insert AccessNet.BindTcp ∅)
            fsRules := if config.unrestricted_filesystem then []
              else expectedFsRules env config
            netRules := if config.unrestricted_network then []
              else config.bind_tcp_ports.map
                  (fun port => { port := port, access := AccessNet.BindTcp })
                ++ config.connect_tcp_ports.map
                  (fun port => { port := port, access := AccessNet.ConnectTcp }) }
        status := restrictSelfStatus kernel
        message :=
          if restrictSelfStatus kernel = RulesetStatus.notEnforced then
            notSupportedMsg
          else if noRulesCondition config then
            "Default restrictive rules applied successfully"
          else "Landlock restrictions applied successfully" } := by
  by_cases hcond : noRulesCondition config = true
  · obtain ⟨h1, h2, h3, h4, h5, h6, h7, h8⟩ := noRulesCondition_decomp config hcond
    simp [apply, hcond, h1, h2, h3, h4, h5, h6, h7, h8, Ruleset.default,
      Ruleset.handleAccessFs, Ruleset.handleAccessNet, Ruleset.create,
      expectedFsRules]
  · have hcond' : noRulesCondition config = false := by
      rcases Bool.eq_false_or_eq_true (noRulesCondition config) with h | h
      · exact absurd h hcond
      · exact h
    rcases Bool.eq_false_or_eq_true config.unrestricted_network with hun | hun
      <;> rcases Bool.eq_false_or_eq_true config.unrestricted_filesystem
        with huf | huf
    case neg.inl.inl | neg.inr.inl =>
      -- filesystem restriction disabled
      simp [apply, hcond', huf, hun, Ruleset.default, Ruleset.handleAccessFs,
        Ruleset.handleAccessNet, Ruleset.create, RulesetCreated.addNetRules,
        bind, Except.bind, pure, Except.pure]
    case neg.inl.inr | neg.inr.inr =>
      -- filesystem restriction enabled: all declared paths resolvable
      have hres' : ∀ p ∈ allDeclaredPaths config, env.resolvable p = true := by
        rcases hres with h | h
        · rw [huf] at h; cases h
        · exact h
      have hrox : ∀ p ∈ config.read_only_executable_paths,
          env.resolvable p = true :=
        fun p hp => hres' p (by simp [allDeclaredPaths, hp])
      have hrwx : ∀ p ∈ config.read_write_executable_paths,
          env.resolvable p = true :=
        fun p hp => hres' p (by simp [allDeclaredPaths, hp])
      have hro : ∀ p ∈ config.read_only_paths, env.resolvable p = true :=
        fun p hp => hres' p (by simp [allDeclaredPaths, hp])
      have hrw : ∀ p ∈ config.read_write_paths, env.resolvable p = true :=
        fun p hp => hres' p (by simp [allDeclaredPaths, hp])
      simp [apply, hcond', huf, hun, Ruleset.default, Ruleset.handleAccessFs,
        Ruleset.handleAccessNet, Ruleset.create, RulesetCreated.addNetRules,
        bind, Except.bind, pure, Except.pure,
        addPathRules_ok env _ _ hrox, addPathRules_ok env _ _ hrwx,
        addPathRules_ok env _ _ hro, addPathRules_ok env _ _ hrw,
        expectedFsRules, List.append_assoc]

theorem roAccess_eq_claim (env : FsEnv) (p : String) :
    roAccess env p = claimRoSet (is_directory env p) := by
  cases h : is_directory env p <;> simp only [roAccess, claimRoSet, h] <;> decide

theorem roxAccess_eq_claim (env : FsEnv) (p : String) :
    roxAccess env p = claimRoxSet (is_directory env p) := by
  cases h : is_directory env p <;> simp only [roxAccess, claimRoxSet, h] <;> decide

theorem rwAccess_eq_claim (env : FsEnv) (p : String) :
    rwAccess env p = claimRwSet (is_directory env p) := by
  cases h : is_directory env p <;> simp only [rwAccess, claimRwSet, h] <;> decide

theorem rwxAccess_eq_claim (env : FsEnv) (p : String) :
    rwxAccess env p = claimRwxSet (is_directory env p) := by
  cases h : is_directory env p
    <;> simp only [rwxAccess, claimRwxSet, claimRwSet, h] <;> decide

/-! ### Lemmas about effective rights (`rulesUnion`) -/

theorem foldl_union_start (l : List FsRule) (s : Finset AccessFs) :
    l.foldl (fun acc rule => acc ∪ rule.access) s
      = s ∪ l.foldl (fun acc rule => acc ∪ rule.access) ∅ := by
  induction l generalizing s with
  | nil => simp
  | cons r l ih =>
    simp only [List.foldl_cons]
    rw [ih (s ∪ r.access), ih (∅ ∪ r.access)]
    simp [Finset.union_assoc]

theorem rulesUnion_cons (r : FsRule) (rules : List FsRule) (p : String) :
    rulesUnion (r :: rules) p
      = (if r.path = p then r.access else ∅) ∪ rulesUnion rules p := by
  simp only [rulesUnion, List.filter_cons]
  by_cases h : r.path = p
  · rw [if_pos (decide_eq_true h), if_pos h, List.foldl_cons,
      foldl_union_start]
    simp
  · rw [if_neg (by simp [h]), if_neg h]
    simp

theorem rulesUnion_append (a b : List FsRule) (p : String) :
    rulesUnion (a ++ b) p = rulesUnion a p ∪ rulesUnion b p := by
  induction a with
  | nil => simp [rulesUnion]
  | cons r a ih =>
    simp [rulesUnion_cons, ih, Finset.union_assoc]

theorem rulesUnion_map (l : List String) (f : String → Finset AccessFs)
    (p : String) :
    rulesUnion (l.map (fun q => { path := q, access := f q })) p
      = if p ∈ l then f p else ∅ := by
  induction l with
  | nil => simp [rulesUnion]
  | cons q l ih =>
    simp only [List.map_cons, rulesUnion_cons, ih]
    by_cases h : q = p
    · subst h
      by_cases hl : q ∈ l <;> simp [hl]
    · have h' : ¬(p = q) := fun hh => h hh.symm
      simp [h, List.mem_cons, h']

theorem mem_rulesUnion_sub (rules : List FsRule) (rule : FsRule) (p : String)
    (hmem : rule ∈ rules) (hp : rule.path = p) :
    rule.access ⊆ rulesUnion rules p := by
  induction rules with
  | nil => cases hmem
  | cons r rest ih =>
    rw [rulesUnion_cons]
    rcases List.mem_cons.mp hmem with rfl | hmem'
    · rw [if_pos hp]
      exact Finset.subset_union_left
    · exact (ih hmem').trans Finset.subset_union_right

/-! ### Error-path lemmas for `apply` -/

theorem noRulesCondition_false_of_mem (config : Config) (p : String)
    (hp : p ∈ allDeclaredPaths config) : noRulesCondition config = false := by
  rcases Bool.eq_false_or_eq_true (noRulesCondition config) with h | h
  · obtain ⟨h1, h2, h3, h4, _, _, _, _⟩ := noRulesCondition_decomp config h
    rw [allDeclaredPaths, h1, h2, h3, h4] at hp
    simp at hp
  · exact h

theorem fsChainK_error (env : FsEnv)
    (l1 l2 l3 l4 : List String)
    (d1 d2 d3 d4 : String → Finset AccessFs) (created : RulesetCreated)
    (k : RulesetCreated → Except String Enforcement)
    (h : (∃ p ∈ l1, env.resolvable p = false)
      ∨ (∃ p ∈ l2, env.resolvable p = false)
      ∨ (∃ p ∈ l3, env.resolvable p = false)
      ∨ (∃ p ∈ l4, env.resolvable p = false)) :
    ∃ msg,
      (addPathRules env d1 l1 created >>= fun r1 =>
        addPathRules env d2 l2 r1 >>= fun r2 =>
          addPathRules env d3 l3 r2 >>= fun r3 =>
            addPathRules env d4 l4 r3 >>= k) = .error msg := by
  rcases h with h1 | h2 | h3 | h4
  · obtain ⟨msg, hmsg⟩ := addPathRules_error env d1 l1 created h1
    exact ⟨msg, by simp [hmsg, bind, Except.bind]⟩
  · cases hc1 : addPathRules env d1 l1 created with
    | error e => exact ⟨e, by simp [hc1, bind, Except.bind]⟩
    | ok v1 =>
      obtain ⟨msg, hmsg⟩ := addPathRules_error env d2 l2 v1 h2
      exact ⟨msg, by simp [hc1, hmsg, bind, Except.bind]⟩
  · cases hc1 : addPathRules env d1 l1 created with
    | error e => exact ⟨e, by simp [hc1, bind, Except.bind]⟩
    | ok v1 =>
      cases hc2 : addPathRules env d2 l2 v1 with
      | error e => exact ⟨e, by simp [hc1, hc2, bind, Except.bind]⟩
      | ok v2 =>
        obtain ⟨msg, hmsg⟩ := addPathRules_error env d3 l3 v2 h3
        exact ⟨msg, by simp [hc1, hc2, hmsg, bind, Except.bind]⟩
  · cases hc1 : addPathRules env d1 l1 created with
    | error e => exact ⟨e, by simp [hc1, bind, Except.bind]⟩
    | ok v1 =>
      cases hc2 : addPathRules env d2 l2 v1 with
      | error e => exact ⟨e, by simp [hc1, hc2, bind, Except.bind]⟩
      | ok v2 =>
        cases hc3 : addPathRules env d3 l3 v2 with
        | error e => exact ⟨e, by simp [hc1, hc2, hc3, bind, Except.bind]⟩
        | ok v3 =>
          obtain ⟨msg, hmsg⟩ := addPathRules_error env d4 l4 v3 h4
          exact ⟨msg, by simp [hc1, hc2, hc3, hmsg, bind, Except.bind]⟩

theorem apply_error_of_unresolvable (env : FsEnv) (kernel : Kernel)
    (config : Config) (p : String)
    (hfs : config.unrestricted_filesystem = false)
    (hp : p ∈ allDeclaredPaths config)
    (hbad : env.resolvable p = false) :
    ∃ msg, apply env kernel config = .error msg := by
  have hcond : noRulesCondition config = false :=
    noRulesCondition_false_of_mem config p hp
  have hOr : (∃ q ∈ config.read_only_executable_paths,
        env.resolvable q = false)
      ∨ (∃ q ∈ config.read_write_executable_paths, env.resolvable q = false)
      ∨ (∃ q ∈ config.read_only_paths, env.resolvable q = false)
      ∨ (∃ q ∈ config.read_write_paths, env.resolvable q = false) := by
    rw [allDeclaredPaths] at hp
    rcases List.mem_append.mp hp with hp' | h4
    rcases List.mem_append.mp hp' with hp'' | h3
    rcases List.mem_append.mp hp'' with h1 | h2
    · exact Or.inl ⟨p, h1, hbad⟩
    · exact Or.inr (Or.inl ⟨p, h2, hbad⟩)
    · exact Or.inr (Or.inr (Or.inl ⟨p, h3, hbad⟩))
    · exact Or.inr (Or.inr (Or.inr ⟨p, h4, hbad⟩))
  simp only [apply, hcond, Bool.false_eq_true, if_false, hfs, Bool.not_false,
    if_true]
  exact fsChainK_error env _ _ _ _ _ _ _ _ _ _ hOr

/-! ### Claim theorems about the ruleset builder -/

/-- Claim C1: for every policy in which all four path lists and both port lists
are empty and both unrestricted flags are false, `apply` installs a
maximally restrictive ruleset: it handles the full filesystem access-right
set of the negotiated ABI (V5) plus TCP bind and TCP connect, registers no
rules, commits it with the kernel's status, and the committed ruleset
denies every governed filesystem access and every TCP bind/connect
access. -/
theorem claim1_default_deny (env : FsEnv) (kernel : Kernel) (config : Config)
    (h1 : config.read_only_paths = []) (h2 : config.read_write_paths = [])
    (h3 : config.read_only_executable_paths = [])
    (h4 : config.read_write_executable_paths = [])
    (h5 : config.bind_tcp_ports = []) (h6 : config.connect_tcp_ports = [])
    (h7 : config.unrestricted_filesystem = false)
    (h8 : config.unrestricted_network = false) :
    ∃ e, apply env kernel config = .ok e
      ∧ e.ruleset.handledFs = AccessFs.fromAll ABI.V5
      ∧ e.ruleset.handledNet = {AccessNet.BindTcp, AccessNet.ConnectTcp}
      ∧ e.ruleset.fsRules = [] ∧ e.ruleset.netRules = []
      ∧ e.status = restrictSelfStatus kernel
      ∧ (∀ p a, a ∈ AccessFs.fromAll ABI.V5 → e.ruleset.allowsFs p a = false)
      ∧ (∀ port a, e.ruleset.allowsNet port a = false) := by
  obtain ⟨ro, rwp, rox, rwx, bp, cp, be, uf, un⟩ := config
  simp only at h1 h2 h3 h4 h5 h6 h7 h8
  subst h1 h2 h3 h4 h5 h6 h7 h8
  refine ⟨_, apply_ok env kernel _ (Or.inr (by simp [allDeclaredPaths])),
    ?_, ?_, ?_, ?_, rfl, ?_, ?_⟩
  · simp
  · have h : insert AccessNet.ConnectTcp (insert AccessNet.BindTcp ∅)
        = ({AccessNet.BindTcp, AccessNet.ConnectTcp} : Finset AccessNet) := by
      decide
    simpa using h
  · simp [expectedFsRules]
  · simp
  · intro p a ha
    simp [RulesetCreated.allowsFs, expectedFsRules, ha]
  · intro port a
    cases a <;> simp [RulesetCreated.allowsNet]

/-- Witness for C1 at the empty config, a fully-supported kernel and an
all-files filesystem. -/
theorem claim1_witness :
    ∃ e, apply envAllFiles kernelOn Config.new = .ok e
      ∧ e.ruleset.handledFs = AccessFs.fromAll ABI.V5
      ∧ e.ruleset.handledNet = {AccessNet.BindTcp, AccessNet.ConnectTcp}
      ∧ e.ruleset.fsRules = [] ∧ e.ruleset.netRules = []
      ∧ e.status = restrictSelfStatus kernelOn
      ∧ (∀ p a, a ∈ AccessFs.fromAll ABI.V5 → e.ruleset.allowsFs p a = false)
      ∧ (∀ port a, e.ruleset.allowsNet port a = false) :=
  claim1_default_deny envAllFiles kernelOn Config.new
    rfl rfl rfl rfl rfl rfl rfl rfl

/-- Claim C2: for every policy with filesystem restriction on whose declared
paths all resolve, `apply` registers the filesystem rules in the fixed
order read-only-executable, read-write-executable, read-only, read-write,
with exactly the per-path access-right sets the specification states
(directory rights iff the path is a directory). -/
theorem claim2_path_order_and_rights (env : FsEnv) (kernel : Kernel)
    (config : Config)
    (hfs : config.unrestricted_filesystem = false)
    (hres : ∀ p ∈ allDeclaredPaths config, env.resolvable p = true) :
    ∃ e, apply env kernel config = .ok e
      ∧ e.ruleset.fsRules
        = config.read_only_executable_paths.map
            (fun p => { path := p, access := claimRoxSet (is_directory env p) })
          ++ config.read_write_executable_paths.map
            (fun p => { path := p, access := claimRwxSet (is_directory env p) })
          ++ config.read_only_paths.map
            (fun p => { path := p, access := claimRoSet (is_directory env p) })
          ++ config.read_write_paths.map
            (fun p => { path := p, access := claimRwSet (is_directory env p) }) := by
  refine ⟨_, apply_ok env kernel config (Or.inr hres), ?_⟩
  simp [hfs, expectedFsRules, roAccess_eq_claim, roxAccess_eq_claim,
    rwAccess_eq_claim, rwxAccess_eq_claim]

/-- Witness for C2 at a concrete mixed policy. -/
theorem claim2_witness :
    ∃ e, apply envAllFiles kernelOn cfgW2 = .ok e
      ∧ e.ruleset.fsRules
        = cfgW2.read_only_executable_paths.map
            (fun p =>
              { path := p, access := claimRoxSet (is_directory envAllFiles p) })
          ++ cfgW2.read_write_executable_paths.map
            (fun p =>
              { path := p, access := claimRwxSet (is_directory envAllFiles p) })
          ++ cfgW2.read_only_paths.map
            (fun p =>
              { path := p, access := claimRoSet (is_directory envAllFiles p) })
          ++ cfgW2.read_write_paths.map
            (fun p =>
              { path := p, access := claimRwSet (is_directory envAllFiles p) }) :=
  claim2_path_order_and_rights envAllFiles kernelOn cfgW2 rfl (by decide)

/-- Counterexample to C3 as stated: under `unrestricted_filesystem = true`,
a declared path that cannot be resolved ("x" under `envBad`) does not make
`apply` fail — the declared-but-unresolvable path is skipped. -/
theorem claim3_counterexample :
    envBad.resolvable "x" = false
      ∧ "x" ∈ cfgUnrestrictedBadPath.read_only_paths
      ∧ (apply envBad kernelOn cfgUnrestrictedBadPath).toOption.isSome = true := by
  decide

/-- Claim C3, amended: for every policy with `unrestricted_filesystem = false`
containing a declared path that cannot be resolved to a handle, `apply`
returns an error, regardless of the `best_effort` flag. -/
theorem claim3_amended_hard_error (env : FsEnv) (kernel : Kernel)
    (config : Config) (p : String) (b : Bool)
    (hfs : config.unrestricted_filesystem = false)
    (hp : p ∈ allDeclaredPaths config)
    (hbad : env.resolvable p = false) :
    ∃ msg, apply env kernel { config with best_effort := b } = .error msg :=
  apply_error_of_unresolvable env kernel { config with best_effort := b } p
    hfs hp hbad

/-- Witness for the amended C3 at a concrete unresolvable path. -/
theorem claim3_amended_witness :
    ∃ msg, apply envBad kernelOn
      { { Config.new with read_only_paths := ["x"] } with best_effort := true }
      = .error msg :=
  claim3_amended_hard_error envBad kernelOn
    { Config.new with read_only_paths := ["x"] } "x" true rfl (by decide) rfl

/-- Claim C4: on a kernel without Landlock support, `apply` still succeeds
(commit does not fail), reports the distinct "not enforced" outcome and
log line, and `main` proceeds to launch the process. -/
theorem claim4_degraded_nonfatal (env : FsEnv) (kernel : Kernel)
    (config : Config)
    (hk : kernel.landlockSupported = false)
    (hres : config.unrestricted_filesystem = true
      ∨ ∀ p ∈ allDeclaredPaths config, env.resolvable p = true) :
    ∃ e, apply env kernel config = .ok e
      ∧ e.status = RulesetStatus.notEnforced
      ∧ e.message = notSupportedMsg
      ∧ e.status ≠ RulesetStatus.fullyEnforced
      ∧ mainLaunchStep env kernel config = MainStep.launch := by
  refine ⟨_, apply_ok env kernel config hres, ?_, ?_, ?_, ?_⟩
  · simp [restrictSelfStatus, hk]
  · simp [restrictSelfStatus, hk]
  · simp [restrictSelfStatus, hk]
  · rw [mainLaunchStep, apply_ok env kernel config hres]

/-- Witness for C4 at a concrete policy on an unsupported kernel. -/
theorem claim4_witness :
    ∃ e, apply envAllFiles kernelOff cfgW2 = .ok e
      ∧ e.status = RulesetStatus.notEnforced
      ∧ e.message = notSupportedMsg
      ∧ e.status ≠ RulesetStatus.fullyEnforced
      ∧ mainLaunchStep envAllFiles kernelOff cfgW2 = MainStep.launch :=
  claim4_degraded_nonfatal envAllFiles kernelOff cfgW2 rfl
    (Or.inr (by decide))

/-- Claim C5: for every policy with filesystem restriction on whose declared
paths all resolve, `apply` registers exactly one rule per declaration, the
effective rights at any path are the union of the derived sets of every
category declaring it, and no rule narrows the effective rights (rule
composition is additive). -/
theorem claim5_additive_union (env : FsEnv) (kernel : Kernel)
    (config : Config) (p : String)
    (hfs : config.unrestricted_filesystem = false)
    (hres : ∀ q ∈ allDeclaredPaths config, env.resolvable q = true) :
    ∃ e, apply env kernel config = .ok e
      ∧ e.ruleset.fsRules.length
        = config.read_only_executable_paths.length
          + config.read_write_executable_paths.length
          + config.read_only_paths.length + config.read_write_paths.length
      ∧ e.ruleset.exactRights p
        = (if p ∈ config.read_only_executable_paths then
            claimRoxSet (is_directory env p) else ∅)
          ∪ (if p ∈ config.read_write_executable_paths then
            claimRwxSet (is_directory env p) else ∅)
          ∪ (if p ∈ config.read_only_paths then
            claimRoSet (is_directory env p) else ∅)
          ∪ (if p ∈ config.read_write_paths then
            claimRwSet (is_directory env p) else ∅)
      ∧ (∀ rule ∈ e.ruleset.fsRules, rule.path = p →
          rule.access ⊆ e.ruleset.exactRights p) := by
  refine ⟨_, apply_ok env kernel config (Or.inr hres), ?_, ?_, ?_⟩
  · simp [hfs, expectedFsRules]
    omega
  · simp [RulesetCreated.exactRights, hfs, expectedFsRules,
      rulesUnion_append, rulesUnion_map, roAccess_eq_claim,
      roxAccess_eq_claim, rwAccess_eq_claim, rwxAccess_eq_claim,
      Finset.union_assoc]
  · intro rule hrule hpath
    exact mem_rulesUnion_sub _ rule p hrule hpath

/-- Witness for C5 at a path declared both read-only and read-write. -/
theorem claim5_witness :
    ∃ e, apply envAllFiles kernelOn cfgW5 = .ok e
      ∧ e.ruleset.fsRules.length
        = cfgW5.read_only_executable_paths.length
          + cfgW5.read_write_executable_paths.length
          + cfgW5.read_only_paths.length + cfgW5.read_write_paths.length
      ∧ e.ruleset.exactRights "/srv/data"
        = (if "/srv/data" ∈ cfgW5.read_only_executable_paths then
            claimRoxSet (is_directory envAllFiles "/srv/data") else ∅)
          ∪ (if "/srv/data" ∈ cfgW5.read_write_executable_paths then
            claimRwxSet (is_directory envAllFiles "/srv/data") else ∅)
          ∪ (if "/srv/data" ∈ cfgW5.read_only_paths then
            claimRoSet (is_directory envAllFiles "/srv/data") else ∅)
          ∪ (if "/srv/data" ∈ cfgW5.read_write_paths then
            claimRwSet (is_directory envAllFiles "/srv/data") else ∅)
      ∧ (∀ rule ∈ e.ruleset.fsRules, rule.path = "/srv/data" →
          rule.access ⊆ e.ruleset.exactRights "/srv/data") :=
  claim5_additive_union envAllFiles kernelOn cfgW5 "/srv/data" rfl (by decide)

/-- Claim C6: a failed metadata lookup makes the directory test false, so every
category derives its narrower file-only access set for that path, and
`apply` still succeeds on a policy declaring the path (the lookup failure
is never fatal). -/
theorem claim6_metadata_failure_file_only (env : FsEnv) (kernel : Kernel)
    (p : String)
    (hm : env.metadata p = none) (hr : env.resolvable p = true) :
    is_directory env p = false
      ∧ roAccess env p = {AccessFs.ReadFile}
      ∧ roxAccess env p = {AccessFs.ReadFile, AccessFs.Execute}
      ∧ rwAccess env p = {AccessFs.ReadFile, AccessFs.WriteFile}
      ∧ rwxAccess env p
        = {AccessFs.ReadFile, AccessFs.WriteFile, AccessFs.Execute}
      ∧ ∃ e, apply env kernel { Config.new with read_write_paths := [p] }
            = .ok e
          ∧ e.ruleset.fsRules
            = [{ path := p,
                 access := {AccessFs.ReadFile, AccessFs.WriteFile} }] := by
  have hdir : is_directory env p = false := by simp [is_directory, hm]
  refine ⟨hdir, ?_, ?_, ?_, ?_, ?_⟩
  · rw [roAccess_eq_claim, hdir]; decide
  · rw [roxAccess_eq_claim, hdir]; decide
  · rw [rwAccess_eq_claim, hdir]; decide
  · rw [rwxAccess_eq_claim, hdir]; decide
  · refine ⟨_, apply_ok env kernel _ (Or.inr ?_), ?_⟩
    · intro q hq
      simp [allDeclaredPaths, Config.new] at hq
      subst hq
      exact hr
    · have hset : rwAccess env p = {AccessFs.ReadFile, AccessFs.WriteFile} := by
        rw [rwAccess_eq_claim, hdir]; decide
      simp [expectedFsRules, Config.new, hset]

/-- Witness for C6 at a concrete path under an all-resolvable filesystem
whose metadata lookups fail. -/
theorem claim6_witness :
    is_directory envNoMeta "/tmp/x" = false
      ∧ roAccess envNoMeta "/tmp/x" = {AccessFs.ReadFile}
      ∧ roxAccess envNoMeta "/tmp/x" = {AccessFs.ReadFile, AccessFs.Execute}
      ∧ rwAccess envNoMeta "/tmp/x" = {AccessFs.ReadFile, AccessFs.WriteFile}
      ∧ rwxAccess envNoMeta "/tmp/x"
        = {AccessFs.ReadFile, AccessFs.WriteFile, AccessFs.Execute}
      ∧ ∃ e, apply envNoMeta kernelOn
            { Config.new with read_write_paths := ["/tmp/x"] } = .ok e
          ∧ e.ruleset.fsRules
            = [{ path := "/tmp/x",
                 access := {AccessFs.ReadFile, AccessFs.WriteFile} }] :=
  claim6_metadata_failure_file_only envNoMeta kernelOn "/tmp/x" rfl rfl

/-- Claim C9: the `best_effort` field is never read after being copied into the
config: `apply` and the subsequent launch decision are identical for any
two configs differing only in `best_effort`. -/
theorem claim9_best_effort_never_read (env : FsEnv) (kernel : Kernel)
    (config : Config) (b : Bool) :
    apply env kernel { config with best_effort := b }
        = apply env kernel config
      ∧ mainLaunchStep env kernel { config with best_effort := b }
        = mainLaunchStep env kernel config :=
  ⟨rfl, rfl⟩

theorem recordParentDir_eq (dirs : List String) (path : String) :
    recordParentDir dirs path = optRecord dirs (pathParent path) := by
  rw [recordParentDir]
  cases pathParent path <;> simp [optRecord]

theorem lddLine1_eq (acc : List String × List String) (line : String) :
    lddLine1 acc line
      = (acc.1 ++ (specResolvedEntry line).toList,
        optRecord acc.2 ((specResolvedEntry line).bind pathParent)) := by
  obtain ⟨libs, dirs⟩ := acc
  rcases Bool.eq_false_or_eq_true (containsStr line "=>") with hc | hc
  · -- marker found
    have hline : ¬(line = "") := by
      intro h; subst h; revert hc; decide
    by_cases hlen : 3 ≤ (split_whitespace line).length
    · by_cases ht : trimParens ((split_whitespace line).getD 2 "") = ""
      · simp only [List.getD_eq_getElem?_getD] at ht
        simp [lddLine1, specResolvedEntry, hline, hc, hlen, ht, optRecord]
      · simp only [List.getD_eq_getElem?_getD] at ht
        simp [lddLine1, specResolvedEntry, hline, hc, hlen, ht, optRecord,
          recordParentDir_eq]
    · simp [lddLine1, specResolvedEntry, hline, hc, hlen, optRecord]
  · -- no marker: line skipped
    simp [lddLine1, specResolvedEntry, hc, optRecord]

theorem lddLine2_eq (acc : List String × List String) (line : String) :
    lddLine2 acc line
      = (acc.1 ++ (specLoaderEntry line).toList,
        optRecord acc.2 ((specLoaderEntry line).bind pathParent)) := by
  obtain ⟨libs, dirs⟩ := acc
  rcases Bool.eq_false_or_eq_true (containsStr line "=>") with hc | hc
  · -- marker present: line skipped by the second pass
    simp [lddLine2, specLoaderEntry, hc, optRecord]
  · by_cases hld : containsStr line "/lib64/ld-linux" = true
      ∨ containsStr line "/lib/ld-linux" = true
    · have hor : (containsStr line "/lib64/ld-linux"
          || containsStr line "/lib/ld-linux") = true := by
        rcases hld with h | h <;> simp [h]
      by_cases hemp : split_whitespace line = []
      · have ht0 : rustTrim "" = "" := by decide
        simp [lddLine2, specLoaderEntry, hc, hld, hor, hemp, ht0, optRecord]
      · by_cases hok : rustTrim ((split_whitespace line).getD 0 "") ≠ ""
          ∧ startsWithSlash (rustTrim ((split_whitespace line).getD 0 ""))
            = true
        · simp only [List.getD_eq_getElem?_getD] at hok
          simp [lddLine2, specLoaderEntry, hc, hld, hor, hemp, hok, optRecord,
            recordParentDir_eq, List.isEmpty_iff]
        · simp only [List.getD_eq_getElem?_getD] at hok
          simp [lddLine2, specLoaderEntry, hc, hld, hor, hemp, hok, optRecord,
            List.isEmpty_iff]
    · have h1 : containsStr line "/lib64/ld-linux" = false := by
        rcases Bool.eq_false_or_eq_true (containsStr line "/lib64/ld-linux")
          with h | h
        · exact absurd (Or.inl h) hld
        · exact h
      have h2 : containsStr line "/lib/ld-linux" = false := by
        rcases Bool.eq_false_or_eq_true (containsStr line "/lib/ld-linux")
          with h | h
        · exact absurd (Or.inr h) hld
        · exact h
      simp [lddLine2, specLoaderEntry, hc, h1, h2, optRecord]

theorem foldl_lddLine1 (lines : List String) :
    ∀ libs dirs : List String,
      lines.foldl lddLine1 (libs, dirs)
        = (libs ++ lines.filterMap specResolvedEntry,
          (lines.filterMap
            (fun l => (specResolvedEntry l).bind pathParent)).foldl
              insertUnique dirs) := by
  induction lines with
  | nil => intro libs dirs; simp
  | cons l ls ih =>
    intro libs dirs
    rw [List.foldl_cons, lddLine1_eq, ih]
    cases hl : specResolvedEntry l with
    | none => simp [hl, optRecord, List.filterMap_cons]
    | some t =>
      cases hp : pathParent t with
      | none => simp [hl, hp, optRecord, List.filterMap_cons]
      | some d => simp [hl, hp, optRecord, List.filterMap_cons]

theorem foldl_lddLine2 (lines : List String) :
    ∀ libs dirs : List String,
      lines.foldl lddLine2 (libs, dirs)
        = (libs ++ lines.filterMap specLoaderEntry,
          (lines.filterMap
            (fun l => (specLoaderEntry l).bind pathParent)).foldl
              insertUnique dirs) := by
  induction lines with
  | nil => intro libs dirs; simp
  | cons l ls ih =>
    intro libs dirs
    rw [List.foldl_cons, lddLine2_eq, ih]
    cases hl : specLoaderEntry l with
    | none => simp [hl, optRecord, List.filterMap_cons]
    | some t =>
      cases hp : pathParent t with
      | none => simp [hl, hp, optRecord, List.filterMap_cons]
      | some d => simp [hl, hp, optRecord, List.filterMap_cons]

theorem foldl_condInsert (p : String → Bool) (ds : List String) :
    ∀ dirs : List String,
      ds.foldl (fun dirs d => if p d then insertUnique dirs d else dirs) dirs
        = (ds.filter p).foldl insertUnique dirs := by
  induction ds with
  | nil => intro dirs; simp
  | cons d ds ih =>
    intro dirs
    rcases Bool.eq_false_or_eq_true (p d) with hd | hd
      <;> simp [List.filter_cons, hd, ih]

theorem getLibDeps_eq_spec (pathExists : String → Bool)
    (output_str : String) :
    get_library_dependencies pathExists output_str
      = specLibraryDependencies pathExists output_str := by
  simp only [get_library_dependencies, specLibraryDependencies, specLibPaths]
  rw [foldl_lddLine1, foldl_lddLine2, foldl_condInsert]
  simp [List.filterMap_filterMap, List.foldl_append, List.append_assoc]

/-- Counterexample to C7 as stated: on the line `"foo /lib64/ld-linux"`
(no `=>` marker, loader fragment present) the claim extracts the first
token `"foo"`, but the code also requires the token to start with `/` and
extracts nothing; on the line `"a => () b"` the claim extracts the trimmed
third token (here empty), but the code skips an empty trimmed token. -/
theorem claim7_counterexample :
    ("foo" ∉ get_library_dependencies (fun _ => false) "foo /lib64/ld-linux")
      ∧ ("" ∉ get_library_dependencies (fun _ => false) "a => () b")
      ∧ get_library_dependencies (fun _ => false) "foo /lib64/ld-linux" = []
      ∧ get_library_dependencies (fun _ => false) "a => () b" = [] := by
  decide

/-- Claim C7, amended: `get_library_dependencies` computes exactly the
specification's description of the parse, once the marker rule is
restricted to nonempty trimmed tokens and the loader rule to nonempty
absolute first tokens: per line, the guarded third-token and first-token
extractions; then, for every extracted path, its containing directory,
plus the well-known system directories that exist, deduplicated in
first-recorded order. -/
theorem claim7_amended_parse (pathExists : String → Bool)
    (output_str : String) :
    get_library_dependencies pathExists output_str
      = specLibraryDependencies pathExists output_str :=
  getLibDeps_eq_spec pathExists output_str

/-! ### The environment-variable formatter -/

theorem process_env_vars_spec (envVar : String → Option String)
    (flags : List String) :
    process_environment_vars envVar flags
      = flags.filterMap (specEnvEntry envVar) := by
  have main : ∀ (fs : List String) (acc : List String),
      fs.foldl
        (fun result env_flag =>
          if containsChar env_flag '=' = false then
            match envVar env_flag with
            | some val => result ++ [env_flag ++ "=" ++ val]
            | none => result
          else
            result ++ [env_flag]) acc
      = acc ++ fs.filterMap (specEnvEntry envVar) := by
    intro fs
    induction fs with
    | nil => intro acc; simp
    | cons fl fls ih =>
      intro acc
      rw [List.foldl_cons, ih]
      rcases Bool.eq_false_or_eq_true (containsChar fl '=') with hc | hc
      · simp [hc, specEnvEntry, List.filterMap_cons]
      · cases hv : envVar fl with
        | none => simp [hc, hv, specEnvEntry, List.filterMap_cons]
        | some v => simp [hc, hv, specEnvEntry, List.filterMap_cons]
  simpa [process_environment_vars] using main flags []

/-- Claim C8: `process_environment_vars` passes entries containing `=` through
verbatim and resolves bare keys against the ambient environment, omitting
unset ones; in particular `["A=1", "B"]` yields `["A=1"]` when `B` is
unset and `["A=1", "B=2"]` when `B=2` is set. -/
theorem claim8_env_var_formatting :
    (∀ (envVar : String → Option String) (flags : List String),
      process_environment_vars envVar flags
        = flags.filterMap (specEnvEntry envVar))
      ∧ process_environment_vars (fun _ => none) ["A=1", "B"] = ["A=1"]
      ∧ process_environment_vars
          (fun k => if k = "B" then some "2" else none) ["A=1", "B"]
        = ["A=1", "B=2"] :=
  ⟨process_env_vars_spec, by decide, by decide⟩

/-! ### String lemmas for the unresolved-library claim -/

theorem containsSeq_append_right (pat ys : List Char)
    (h : containsSeq pat ys = true) :
    ∀ xs : List Char, containsSeq pat (xs ++ ys) = true := by
  intro xs
  induction xs with
  | nil => simpa using h
  | cons c cs ih => simp [containsSeq, ih]

theorem splitOnNl_no_nl :
    ∀ cs : List Char, (∀ c ∈ cs, ¬(c = '\n')) → splitOnNl cs = [cs] := by
  intro cs
  induction cs with
  | nil => intro _; rfl
  | cons c cs ih =>
    intro h
    have hc : ¬(c = '\n') := h c (by simp)
    simp [splitOnNl, hc, ih (fun x hx => h x (List.mem_cons_of_mem _ hx))]

theorem rustLines_single (cs : List Char) (hne : ¬(cs = []))
    (h : ∀ c ∈ cs, ¬(c = '\n')) :
    rustLines (String.mk cs) = [String.mk cs] := by
  cases cs with
  | nil => exact absurd rfl hne
  | cons c cs' =>
    have hsplit := splitOnNl_no_nl (c :: cs') h
    simp [rustLines, hsplit]

theorem splitWsAux_token (rest : List Char) :
    ∀ cs : List Char, (∀ c ∈ cs, c.isWhitespace = false) →
      ∀ acc : List Char, ¬(acc ++ cs = []) →
        splitWsAux (cs ++ ' ' :: rest) acc
          = (acc.reverse ++ cs) :: splitWsAux rest [] := by
  intro cs
  induction cs with
  | nil =>
    intro _ acc hacc
    have hacc' : ¬(acc = []) := by simpa using hacc
    have hsp : (' ' : Char).isWhitespace = true := by decide
    simp [splitWsAux, hsp, List.isEmpty_iff, hacc']
  | cons c cs ih =>
    intro h acc _
    have hc : c.isWhitespace = false := h c (by simp)
    have ihx := ih (fun x hx => h x (List.mem_cons_of_mem _ hx))
      (c :: acc) (by simp)
    simp [splitWsAux, hc, ihx, List.append_assoc]

/-- Claim C10: for every line of the shape `NAME => not found` (`NAME` a
nonempty whitespace-free token), `get_library_dependencies` does not skip
the unresolved library: it records the literal third token `"not"` as a
library path entry and that token's parent directory — the empty string —
as a directory entry (here with no system directory present). -/
theorem claim10_not_found_line (name : String) (h1 : ¬(name = ""))
    (h2 : ∀ c ∈ name.toList, c.isWhitespace = false) :
    get_library_dependencies (fun _ => false) (name ++ " => not found")
      = ["not", ""] := by
  rw [getLibDeps_eq_spec]
  obtain ⟨data⟩ := name
  cases data with
  | nil => exact absurd (by decide) h1
  | cons d ds =>
    have hws : ∀ c ∈ (d :: ds), c.isWhitespace = false := h2
    have hlitn : ∀ c ∈ [' ', '=', '>', ' ', 'n', 'o', 't', ' ', 'f', 'o',
        'u', 'n', 'd'], ¬(c = '\n') := by decide
    have hnonl : ∀ c ∈ (d :: ds) ++ [' ', '=', '>', ' ', 'n', 'o', 't', ' ',
        'f', 'o', 'u', 'n', 'd'], ¬(c = '\n') := by
      intro c hc
      rcases List.mem_append.mp hc with hmem | hmem
      · intro he
        have hwc := hws c hmem
        rw [he] at hwc
        revert hwc; decide
      · exact hlitn c hmem
    have hlines : rustLines (String.mk (d :: ds) ++ " => not found")
        = [String.mk (d :: (ds ++ [' ', '=', '>', ' ', 'n', 'o', 't', ' ',
            'f', 'o', 'u', 'n', 'd']))] :=
      rustLines_single
        ((d :: ds) ++ [' ', '=', '>', ' ', 'n', 'o', 't', ' ', 'f', 'o',
          'u', 'n', 'd']) (by simp) hnonl
    have hcont : containsStr
        (String.mk (d :: (ds ++ [' ', '=', '>', ' ', 'n', 'o', 't', ' ',
          'f', 'o', 'u', 'n', 'd']))) "=>" = true :=
      containsSeq_append_right ['=', '>']
        [' ', '=', '>', ' ', 'n', 'o', 't', ' ', 'f', 'o', 'u', 'n', 'd']
        (by decide) (d :: ds)
    have hsw : split_whitespace
        (String.mk (d :: (ds ++ [' ', '=', '>', ' ', 'n', 'o', 't', ' ',
          'f', 'o', 'u', 'n', 'd'])))
        = [String.mk (d :: ds), "=>", "not", "found"] := by
      show (splitWsAux ((d :: ds)
        ++ (' ' :: ['=', '>', ' ', 'n', 'o', 't', ' ', 'f', 'o', 'u', 'n',
          'd'])) []).map String.mk = _
      rw [splitWsAux_token _ _ hws _ (by simp)]
      have htail : (splitWsAux
          ['=', '>', ' ', 'n', 'o', 't', ' ', 'f', 'o', 'u', 'n', 'd']
          []).map String.mk = ["=>", "not", "found"] := by decide
      simp [htail]
    have hsr : specResolvedEntry
        (String.mk (d :: (ds ++ [' ', '=', '>', ' ', 'n', 'o', 't', ' ',
          'f', 'o', 'u', 'n', 'd']))) = some "not" := by
      have htp : trimParens "not" = "not" := by decide
      simp [specResolvedEntry, hcont, hsw, htp]
    have hsl : specLoaderEntry
        (String.mk (d :: (ds ++ [' ', '=', '>', ' ', 'n', 'o', 't', ' ',
          'f', 'o', 'u', 'n', 'd']))) = none := by
      simp [specLoaderEntry, hcont]
    have hpp : pathParent "not" = some "" := by decide
    simp [specLibraryDependencies, specLibPaths, hlines, hsr, hsl, hpp,
      system_dirs, insertUnique]

/-- Witness for C10 at the concrete library name `libfoo.so.1`. -/
theorem claim10_witness :
    get_library_dependencies (fun _ => false)
      ("libfoo.so.1" ++ " => not found") = ["not", ""] :=
  claim10_not_found_line "libfoo.so.1" (by decide) (by decide)

end Rstrict
